import Mathlib

/-!
Verification of the profile-page extraction core of `fetch_users.py`.

The extraction core is `parse_user_profile(html_content, user_id, profile_url)`:
it receives the raw markup (already parsed into a document tree by the external
HTML parser), the caller-supplied user id, the profile URL, and reads the
tracker base URL from the `JIRA_SERVER` configuration constant.  We embed the
document tree as an inductive `Node` type, the BeautifulSoup operations the
source uses (`find` / `find_all` in pre-order document order, `.text`,
attribute access, class matching) as functions on that tree, and the Python
string operations (`strip`, `rstrip`, `lower`, `replace`, `split`,
`startswith`, `in`) as kernel-computable functions on `List Char` data.
The base URL is passed as an explicit `base_url` argument.
-/

/-! ### Python string primitives -/

/-- If `pre` is a leading segment of `l`, return the remainder, else `none`.
Models Python slice tests such as `s.startswith(p)` (the `isSome` test). -/
def stripLead? : List Char → List Char → Option (List Char)
  | [], l => some l
  | _ :: _, [] => none
  | p :: ps, c :: cs => if p = c then stripLead? ps cs else none

/-- Does `pat` occur as a contiguous segment of `l`?  Models Python `pat in s`. -/
def hasSubAux (pat : List Char) : List Char → Bool
  | [] => (stripLead? pat []).isSome
  | c :: cs => (stripLead? pat (c :: cs)).isSome || hasSubAux pat cs

/-- Python `pat in s` (substring containment, used for `'Avatar' in x`). -/
def pyContains (s pat : String) : Bool := hasSubAux pat.data s.data

/-- Python `s.split(sep)` for a non-empty separator: splits on non-overlapping
occurrences scanned left to right.  The fuel argument (instantiated with the
length of the input) only makes the recursion structural; it never runs out
when the separator is non-empty, which is the only way the source uses it. -/
def splitOnAux (sep : List Char) : Nat → List Char → List (List Char)
  | _, [] => [[]]
  | 0, l => [l]
  | fuel + 1, c :: cs =>
    match stripLead? sep (c :: cs) with
    | some rest => [] :: splitOnAux sep fuel rest
    | none =>
      match splitOnAux sep fuel cs with
      | [] => [[c]]
      | p :: ps => (c :: p) :: ps

/-- Python `s.split(sep)` lifted to `String`. -/
def pySplit (s sep : String) : List String :=
  (splitOnAux sep.data s.data.length s.data).map String.mk

/-- Interleave a separator between the words, Python `sep.join(words)`. -/
def joinSep (sep : List Char) : List (List Char) → List Char
  | [] => []
  | [w] => w
  | w :: w2 :: ws => w ++ sep ++ joinSep sep (w2 :: ws)

/-- Python `s.replace(old, new)` for a non-empty `old`: replace every
non-overlapping occurrence, scanning left to right.  This equals
`new.join(s.split(old))`, which is how we compute it. -/
def pyReplace (s old new : String) : String :=
  String.mk (joinSep new.data (splitOnAux old.data s.data.length s.data))

/-- Python `s.strip()`: drop whitespace from both ends. -/
def pyTrim (s : String) : String :=
  String.mk (((s.data.dropWhile Char.isWhitespace).reverse.dropWhile
    Char.isWhitespace).reverse)

/-- Python `s.lower()`. -/
def pyLower (s : String) : String := String.mk (s.data.map Char.toLower)

/-- Python `s.startswith(pre)`; also models the regex test `^mailto:`. -/
def pyStartsWith (s pre : String) : Bool := (stripLead? pre.data s.data).isSome

/-- Python `s.rstrip(':')`: drop every trailing colon. -/
def rstripColon (s : String) : String :=
  String.mk ((s.data.reverse.dropWhile (fun c => c = ':')).reverse)

/-- Whitespace-separated words of a character list (Python `s.split()` with no
separator, which is also how the HTML parser tokenizes the multi-valued
`class` attribute).  Fuel is instantiated with the input length. -/
def wsWords : Nat → List Char → List (List Char)
  | _, [] => []
  | 0, l => [l]
  | fuel + 1, c :: cs =>
    if c.isWhitespace then wsWords fuel cs
    else (c :: cs.takeWhile (fun x => !x.isWhitespace)) ::
      wsWords fuel (cs.dropWhile (fun x => !x.isWhitespace))

/-- Whitespace-separated words of a string. -/
def pyWords (s : String) : List String := (wsWords s.data.length s.data).map String.mk

/-! ### The document tree

The external HTML parser hands `parse_user_profile` a tree of element and raw
text nodes; an element carries its tag name, its attribute list and its
children in document order. -/

mutual
/-- A node of the parsed document tree; an element carries its tag, its
attribute list and its children in document order. -/
inductive Node where
  | elem (tag : String) (attrs : List (String × String)) (children : NodeForest)
  | text (s : String)
/-- The sibling sequence of children: an isomorphic copy of `List Node` that
keeps every tree traversal structurally recursive and kernel-computable. -/
inductive NodeForest where
  | nil
  | cons (n : Node) (ns : NodeForest)
end

/-- Turn a child forest into an ordinary list of nodes. -/
def forestToList : NodeForest → List Node
  | NodeForest.nil => []
  | NodeForest.cons n ns => n :: forestToList ns

/-- Build a child forest from an ordinary list of nodes. -/
def forestOfList : List Node → NodeForest
  | [] => NodeForest.nil
  | n :: ns => NodeForest.cons n (forestOfList ns)

/-- Convenience constructor: an element with its children given as a list. -/
def elemL (tag : String) (attrs : List (String × String)) (children : List Node) : Node :=
  Node.elem tag attrs (forestOfList children)

/-- The children of a node (a text node has none). -/
def childrenOf : Node → List Node
  | Node.elem _ _ cs => forestToList cs
  | Node.text _ => []

mutual
/-- A node followed by all its descendants, in pre-order document order. -/
def selfDesc : Node → List Node
  | Node.text s => [Node.text s]
  | Node.elem t a cs => Node.elem t a cs :: forestNodes cs
/-- All nodes of a forest with their descendants, in pre-order. -/
def forestNodes : NodeForest → List Node
  | NodeForest.nil => []
  | NodeForest.cons n ns => selfDesc n ++ forestNodes ns
end

/-- All nodes of a forest in pre-order document order: this is the traversal
order of BeautifulSoup `find` / `find_all`. -/
def allNodesList (roots : List Node) : List Node := (roots.map selfDesc).flatten

/-- The tag of an element node. -/
def tagOf? : Node → Option String
  | Node.elem t _ _ => some t
  | Node.text _ => none

/-- Does the node carry the given element tag? -/
def tagIs (n : Node) (t : String) : Bool :=
  match n with
  | Node.elem tg _ _ => tg == t
  | Node.text _ => false

/-- The value of an attribute, `none` when absent (Python `tag.get(key)` when
the key is missing, and text nodes carry no attributes). -/
def getAttr : Node → String → Option String
  | Node.elem _ attrs _, k => (attrs.find? (fun p => p.1 == k)).map Prod.snd
  | Node.text _, _ => none

/-- The multi-valued `class` attribute as the parser exposes it: the
whitespace-separated words of the raw attribute value. -/
def classListOf (n : Node) : List String := pyWords ((getAttr n "class").getD "")

/-- BeautifulSoup `class_='c'` matching: `c` is among the element classes. -/
def hasClass (n : Node) (c : String) : Bool := (classListOf n).contains c

/-- The raw text piece a node directly contributes. -/
def textPiece : Node → Option (List Char)
  | Node.text s => some s.data
  | Node.elem _ _ _ => none

/-- BeautifulSoup `.text`: all raw strings of the subtree concatenated in
document order. -/
def textOf (n : Node) : String :=
  String.mk (((allNodesList [n]).filterMap textPiece).flatten)

/-- BeautifulSoup `find_all(pred)` over a forest: all matching nodes in
pre-order document order. -/
def findAll (p : Node → Bool) (roots : List Node) : List Node :=
  (allNodesList roots).filter p

/-- BeautifulSoup `find(pred)`: the first matching node in document order. -/
def findNode (p : Node → Bool) (roots : List Node) : Option Node :=
  (findAll p roots).head?

/-! ### The extracted record -/

/-- The content of one entry of the `sections` mapping: a key/value mapping
from a definition block, an ordered row/cell table, or a plain string from a
labeled sub-panel. -/
inductive SectionVal where
  | dict (entries : List (String × String))
  | table (rows : List (List String))
  | textVal (s : String)
deriving Repr, DecidableEq

/-- The record `parse_user_profile` builds.  A Python dict key that is only
assigned when found is an `Option` field; `details` and `sections` are
insertion-ordered string-keyed dictionaries, present from the start. -/
structure UserData where
  id : String
  profile_url : String
  page_title : Option String := none
  full_name : Option String := none
  avatar_url : Option String := none
  email : Option String := none
  username : Option String := none
  details : List (String × String) := []
  sections : List (String × SectionVal) := []
deriving Repr, DecidableEq

/-- Python dict assignment `d[k] = v`: overwrite in place when the key exists
(keeping its position), append otherwise. -/
def dictInsert {α : Type} : List (String × α) → String → α → List (String × α)
  | [], k, v => [(k, v)]
  | p :: ps, k, v => if p.1 == k then (k, v) :: ps else p :: dictInsert ps k v

/-- Python dict lookup `d.get(k)`. -/
def dictGet {α : Type} : List (String × α) → String → Option α
  | [], _ => none
  | p :: ps, k => if p.1 == k then some p.2 else dictGet ps k

/-! ### The extraction pipeline, step by step from the source -/

/-- The record as initialized at the top of `parse_user_profile`. -/
def initRecord (user_id profile_url : String) : UserData :=
  { id := user_id, profile_url := profile_url }

/-- Line 86: `soup.find('title')`. -/
def isTitleTag (n : Node) : Bool := tagIs n "title"

/-- Line 91: `soup.find('h1', class_='page-title')`. -/
def isH1PageTitle (n : Node) : Bool := tagIs n "h1" && hasClass n "page-title"

/-- Line 93: `soup.find('h1')`. -/
def isH1 (n : Node) : Bool := tagIs n "h1"

/-- Line 99: `soup.find('img', class_='userLogo')`. -/
def isUserLogoImg (n : Node) : Bool := tagIs n "img" && hasClass n "userLogo"

/-- Line 101: `soup.find('img', {'alt': lambda x: x and 'Avatar' in x})`:
an image whose `alt` attribute is present, truthy, and contains `Avatar`. -/
def isAvatarAltImg (n : Node) : Bool :=
  tagIs n "img" &&
    (match getAttr n "alt" with
     | some a => !a.isEmpty && pyContains a "Avatar"
     | none => false)

/-- Line 112: `soup.find('a', href=re.compile(r'^mailto:'))`. -/
def isMailtoLink (n : Node) : Bool :=
  tagIs n "a" &&
    (match getAttr n "href" with
     | some h => pyStartsWith h "mailto:"
     | none => false)

/-- Line 117: `soup.find('span', class_='user-hover')`. -/
def isUserHoverSpan (n : Node) : Bool := tagIs n "span" && hasClass n "user-hover"

/-- Line 123: `soup.find_all('dl')`. -/
def isDl (n : Node) : Bool := tagIs n "dl"

/-- Line 126: `dl.find_all('dt')`. -/
def isDt (n : Node) : Bool := tagIs n "dt"

/-- Line 127: `dl.find_all('dd')`. -/
def isDd (n : Node) : Bool := tagIs n "dd"

/-- Line 142: `soup.find_all('table')`. -/
def isTable (n : Node) : Bool := tagIs n "table"

/-- Line 145: `table.find_all('tr')`. -/
def isTr (n : Node) : Bool := tagIs n "tr"

/-- Line 148: `row.find_all(['td', 'th'])`. -/
def isCell (n : Node) : Bool := tagIs n "td" || tagIs n "th"

/-- Line 158: `soup.find('div', id='user-profile-panel')`. -/
def isProfilePanelId (n : Node) : Bool :=
  tagIs n "div" && (getAttr n "id" == some "user-profile-panel")

/-- Line 160: `soup.find('div', class_='profile-panel')`. -/
def isProfilePanelClass (n : Node) : Bool := tagIs n "div" && hasClass n "profile-panel"

/-- Line 164: `find_all(['div', 'section'], class_=True)`: block or section
elements carrying a `class` attribute. -/
def isClassedSub (n : Node) : Bool :=
  (tagIs n "div" || tagIs n "section") && (getAttr n "class").isSome

/-- Lines 86-88: record the trimmed `<title>` text when present. -/
def stepTitle (doc : List Node) (ud : UserData) : UserData :=
  match findNode isTitleTag doc with
  | some t => { ud with page_title := some (pyTrim (textOf t)) }
  | none => ud

/-- Lines 91-93: the profile heading, with the class-marked `h1` preferred and
a plain `h1` as fallback. -/
def profileHeading (doc : List Node) : Option Node :=
  match findNode isH1PageTitle doc with
  | some h => some h
  | none => findNode isH1 doc

/-- Lines 95-96: record the trimmed heading text when a heading was found. -/
def stepHeading (doc : List Node) (ud : UserData) : UserData :=
  match profileHeading doc with
  | some h => { ud with full_name := some (pyTrim (textOf h)) }
  | none => ud

/-- Lines 99-101: the avatar image, `userLogo` class preferred, `Avatar` in
the `alt` text as fallback. -/
def avatarImg (doc : List Node) : Option Node :=
  match findNode isUserLogoImg doc with
  | some i => some i
  | none => findNode isAvatarAltImg doc

/-- Model of `urllib.parse.urljoin` for the one way the source calls it: the
reference is root-relative (starts with `/` but not `//`), so the result is
the scheme and network location of the base followed by the reference; a base
without a scheme separator contributes nothing. -/
def urljoin (base ref : String) : String :=
  match pySplit base "://" with
  | scheme :: rest :: _ => scheme ++ "://" ++ ((pySplit rest "/").headD "") ++ ref
  | _ => ref

/-- Lines 105-108: avatar URL normalization.  A protocol-relative reference
gets the `https:` scheme, a root-relative one is resolved against the tracker
base URL, anything else passes through unchanged. -/
def normalizeAvatarUrl (base url : String) : String :=
  if pyStartsWith url "//" then "https:" ++ url
  else if pyStartsWith url "/" then urljoin base url
  else url

/-- Lines 99-109: record the normalized avatar URL when an avatar image with a
truthy `src` attribute was found. -/
def stepAvatar (base : String) (doc : List Node) (ud : UserData) : UserData :=
  match avatarImg doc with
  | some img =>
    match getAttr img "src" with
    | some src =>
      if src.isEmpty then ud
      else { ud with avatar_url := some (normalizeAvatarUrl base src) }
    | none => ud
  | none => ud

/-- Lines 112-114: record the first mailto target with every occurrence of the
`mailto:` text removed (Python `str.replace` replaces all occurrences). -/
def stepEmail (doc : List Node) (ud : UserData) : UserData :=
  match findNode isMailtoLink doc with
  | some a => { ud with email := some (pyReplace ((getAttr a "href").getD "") "mailto:" "") }
  | none => ud

/-- Lines 117-119: record the username from the user-hover element, preferring
a truthy `data-username` attribute over the trimmed element text. -/
def stepUsername (doc : List Node) (ud : UserData) : UserData :=
  match findNode isUserHoverSpan doc with
  | some el =>
    { ud with
      username := some
        (match getAttr el "data-username" with
         | some u => if u.isEmpty then pyTrim (textOf el) else u
         | none => pyTrim (textOf el)) }
  | none => ud

/-- The fixed recognized key list of line 135, spaces intact. -/
def spacedKeys : List String :=
  ["username", "full name", "email", "groups", "login count", "last login"]

/-- Line 136 key normalization: lowercase, then spaces to underscores. -/
def normKey (k : String) : String := pyReplace (pyLower k) " " "_"

/-- Lines 130-131: one `dt`/`dd` pair as key and value text. -/
def pairKV (dt dd : Node) : String × String :=
  (rstripColon (pyTrim (textOf dt)), pyTrim (textOf dd))

/-- Lines 126-131: the positional `dt`/`dd` pairing of one definition list,
already mapped to key/value strings. -/
def dlPairsOf (dl : Node) : List (String × String) :=
  ((findAll isDt (childrenOf dl)).zip (findAll isDd (childrenOf dl))).map
    (fun p => pairKV p.1 p.2)

/-- Lines 134-136: fold one pair into the top-level `details` dictionary. -/
def detailStep (d : List (String × String)) (kv : String × String) : List (String × String) :=
  if spacedKeys.contains (pyLower kv.1) then dictInsert d (normKey kv.1) kv.2 else d

/-- Lines 129-136: fold one pair into the per-list `section_data` dictionary
and the shared `details` dictionary simultaneously. -/
def dlStep (acc : List (String × String) × List (String × String)) (kv : String × String) :
    List (String × String) × List (String × String) :=
  (dictInsert acc.1 kv.1 kv.2, detailStep acc.2 kv)

/-- The `section_data` dictionary one definition list yields. -/
def sectionDataOf (dl : Node) : List (String × String) :=
  (dlPairsOf dl).foldl (fun sd kv => dictInsert sd kv.1 kv.2) []

/-- Lines 124-139: process one definition list: build its `section_data`,
thread the shared `details`, and store a non-empty `section_data` under the
`profile_details` section key. -/
def processDl (ud : UserData) (dl : Node) : UserData :=
  let r := (dlPairsOf dl).foldl dlStep ([], ud.details)
  let ud1 := { ud with details := r.2 }
  if r.1.isEmpty then ud1
  else { ud1 with sections := dictInsert ud1.sections "profile_details" (SectionVal.dict r.1) }

/-- Lines 123-139: the definition-list pass over the whole document. -/
def stepDls (doc : List Node) (ud : UserData) : UserData :=
  (findAll isDl doc).foldl processDl ud

/-- Line 148: the cells of one row. -/
def rowCells (row : Node) : List Node := findAll isCell (childrenOf row)

/-- Lines 144-151: the row data of one table, rows with no cells skipped. -/
def tableDataOf (tbl : Node) : List (List String) :=
  (findAll isTr (childrenOf tbl)).foldl
    (fun td row =>
      let cells := rowCells row
      if cells.isEmpty then td
      else td ++ [cells.map (fun c => pyTrim (textOf c))])
    []

/-- Lines 143-154: process one enumerated table, storing non-empty table data
under `table_<index>`. -/
def processTable (ud : UserData) (itbl : Nat × Node) : UserData :=
  let td := tableDataOf itbl.2
  if td.isEmpty then ud
  else { ud with sections := dictInsert ud.sections ("table_" ++ toString itbl.1) (SectionVal.table td) }

/-- Lines 142-154: the table pass, enumerating all tables in document order. -/
def stepTables (doc : List Node) (ud : UserData) : UserData :=
  ((findAll isTable doc).enum).foldl processTable ud

/-- Lines 158-160: the profile container, by id first, by class as fallback. -/
def profilePanel (doc : List Node) : Option Node :=
  match findNode isProfilePanelId doc with
  | some d => some d
  | none => findNode isProfilePanelClass doc

/-- Lines 165-168: process one classed subsection of the profile container. -/
def processSub (ud : UserData) (sub : Node) : UserData :=
  let className := String.mk (joinSep [' '] ((classListOf sub).map String.data))
  if className.isEmpty then ud
  else if (pyTrim (textOf sub)).isEmpty then ud
  else { ud with sections := dictInsert ud.sections className (SectionVal.textVal (pyTrim (textOf sub))) }

/-- Lines 156-168: the sub-panel pass. -/
def stepPanel (doc : List Node) (ud : UserData) : UserData :=
  match profilePanel doc with
  | some d => (findAll isClassedSub (childrenOf d)).foldl processSub ud
  | none => ud

/-- Lines 78-119: the scalar-field part of the pipeline (title, heading,
avatar, email, username) applied to the freshly initialized record. -/
def scalarSteps (doc : List Node) (user_id profile_url base_url : String) : UserData :=
  stepUsername doc
    (stepEmail doc
      (stepAvatar base_url doc
        (stepHeading doc
          (stepTitle doc (initRecord user_id profile_url)))))

/-- `parse_user_profile` (lines 74-170): the full extraction pipeline in the
source's order.  `base_url` stands for the `JIRA_SERVER` configuration value
read by the avatar normalization. -/
def parse_user_profile (doc : List Node) (user_id profile_url base_url : String) : UserData :=
  stepPanel doc (stepTables doc (stepDls doc (scalarSteps doc user_id profile_url base_url)))

/-! ### Derived vocabulary for the claims -/

/-- A heading element (`h1` through `h6`). -/
def isHeadingTag (n : Node) : Bool :=
  tagIs n "h1" || tagIs n "h2" || tagIs n "h3" || tagIs n "h4" ||
    tagIs n "h5" || tagIs n "h6"

/-- A node carrying any marker the extraction recognizes: a title element, a
heading, a user-logo or Avatar image, a mailto hyperlink, a user-hover
element, a definition list, a table, or a profile container. -/
def isMarkerNode (n : Node) : Bool :=
  isTitleTag n || isHeadingTag n || isUserLogoImg n || isAvatarAltImg n ||
    isMailtoLink n || isUserHoverSpan n || isDl n || isTable n ||
    isProfilePanelId n || isProfilePanelClass n

/-- All `dt`/`dd` key/value pairs of every definition list of the document, in
the order the definition-block pass processes them. -/
def dlPairsList (doc : List Node) : List (String × String) :=
  ((findAll isDl doc).map dlPairsOf).flatten

/-- The fixed normalized key set the spec names for the `details` mapping. -/
def normalizedKeys : List String :=
  ["username", "full_name", "email", "groups", "login_count", "last_login"]

/-- Following the spec's words: the description value of the last recognized
pair carrying the given normalized key, scanning the pair list so that a
later pair overrides an earlier one. -/
def lastRecognizedValue (l : List (String × String)) (key : String) : Option String :=
  match l with
  | [] => none
  | kv :: rest =>
    match lastRecognizedValue rest key with
    | some v => some v
    | none =>
      if spacedKeys.contains (pyLower kv.1) && (normKey kv.1 == key) then some kv.2
      else none

/-- Following the spec's words: the `section_data` mapping of the last
definition list that yielded a non-empty mapping, if any. -/
def lastNonemptyDlData (dls : List Node) : Option (List (String × String)) :=
  match dls with
  | [] => none
  | dl :: rest =>
    match lastNonemptyDlData rest with
    | some m => some m
    | none => if (sectionDataOf dl).isEmpty then none else some (sectionDataOf dl)

/-! ### Concrete example documents used by witnesses and counterexamples -/

/-- A document with no recognized marker at all. -/
def plainDoc : List Node :=
  [elemL "body" [] [Node.text "hello", elemL "p" [("class", "note")] [Node.text "world"]]]

/-- A document whose first mailto hyperlink target itself contains a second
`mailto:` occurrence. -/
def doubleMailtoDoc : List Node :=
  [elemL "body" [] [elemL "a" [("href", "mailto:mailto:x")] [Node.text "mail me"]]]

/-- A document whose single definition-list key already contains an
underscore. -/
def underscoreKeyDoc : List Node :=
  [elemL "dl" [] [elemL "dt" [] [Node.text "full_name"], elemL "dd" [] [Node.text "X"]]]

/-- A document with one recognized definition-list key (`Email`). -/
def emailDlDoc : List Node :=
  [elemL "dl" [] [elemL "dt" [] [Node.text "Email:"], elemL "dd" [] [Node.text "a@b"]]]

/-- A document with a class-marked heading after a plain heading. -/
def headingDoc : List Node :=
  [elemL "body" [] [
    elemL "h1" [] [Node.text " Plain "],
    elemL "h1" [("class", "page-title")] [Node.text " Jane Doe "]]]

/-- A document with an empty first table and a non-empty second table. -/
def twoTablesDoc : List Node :=
  [elemL "body" [] [
    elemL "table" [] [Node.text "no rows here"],
    elemL "table" [] [
      elemL "tr" [] [],
      elemL "tr" [] [elemL "th" [] [Node.text " h "], elemL "td" [] [Node.text " v "]]]]]

/-- A document whose definition list has two terms but only one description. -/
def unevenDlDoc : List Node :=
  [elemL "dl" [] [
    elemL "dt" [] [Node.text "First"],
    elemL "dt" [] [Node.text "Second"],
    elemL "dd" [] [Node.text "only value"]]]

/-- A document with a non-empty definition list followed by an empty one. -/
def twoDlsDoc : List Node :=
  [elemL "body" [] [
    elemL "dl" [] [elemL "dt" [] [Node.text "Groups"], elemL "dd" [] [Node.text "dev"]],
    elemL "dl" [] [Node.text "nothing paired"]]]

/-- A document whose first user-logo image has no `src`, next to an Avatar
image that has one. -/
def logoNoSrcDoc : List Node :=
  [elemL "body" [] [
    elemL "img" [("class", "userLogo")] [],
    elemL "img" [("alt", "User Avatar"), ("src", "//cdn/a.png")] []]]

/-! ### Dictionary lemmas -/

/-- Inserting a key makes it retrievable with the inserted value. -/
theorem dictGet_insert_self {α : Type} (d : List (String × α)) (k : String) (v : α) :
    dictGet (dictInsert d k v) k = some v := by
  induction d with
  | nil => simp [dictInsert, dictGet]
  | cons p ps ih =>
    by_cases h : p.1 = k
    · simp [dictInsert, dictGet, h]
    · simp [dictInsert, dictGet, h, ih]

/-- Inserting one key leaves every other key's lookup unchanged. -/
theorem dictGet_insert_ne {α : Type} (d : List (String × α)) (k k' : String) (v : α)
    (h : k' ≠ k) : dictGet (dictInsert d k v) k' = dictGet d k' := by
  induction d with
  | nil => simp [dictInsert, dictGet, Ne.symm h]
  | cons p ps ih =>
    by_cases hp : p.1 = k
    · simp [dictInsert, dictGet, hp, Ne.symm h]
    · simp [dictInsert, dictGet, hp, ih]

/-- Every entry of an updated dictionary is an old entry or the new pair. -/
theorem mem_dictInsert {α : Type} {d : List (String × α)} {k : String} {v : α}
    {p : String × α} (h : p ∈ dictInsert d k v) : p ∈ d ∨ p = (k, v) := by
  induction d with
  | nil => simpa [dictInsert] using h
  | cons q qs ih =>
    simp only [dictInsert] at h
    by_cases hq : q.1 = k
    · rw [if_pos (by simp [hq])] at h
      rcases List.mem_cons.mp h with h1 | h1
      · exact Or.inr h1
      · exact Or.inl (List.mem_cons_of_mem _ h1)
    · rw [if_neg (by simp [hq])] at h
      rcases List.mem_cons.mp h with h1 | h1
      · exact Or.inl (by simp [h1])
      · rcases ih h1 with h2 | h2
        · exact Or.inl (List.mem_cons_of_mem _ h2)
        · exact Or.inr h2

/-- A retrievable key stays retrievable across any later insertion. -/
theorem dictGet_isSome_insert {α : Type} (d : List (String × α)) (k k' : String) (v : α)
    (h : (dictGet d k').isSome) : (dictGet (dictInsert d k v) k').isSome := by
  by_cases hk : k' = k
  · subst hk; simp [dictGet_insert_self]
  · rwa [dictGet_insert_ne _ _ _ _ hk]

/-! ### Find lemmas -/

/-- `find` misses exactly when no node of the document satisfies the test. -/
theorem findNode_eq_none_iff (p : Node → Bool) (roots : List Node) :
    findNode p roots = none ↔ ∀ n ∈ allNodesList roots, ¬ p n := by
  unfold findNode findAll
  rw [List.head?_eq_none_iff, List.filter_eq_nil_iff]

/-- `find_all` is empty exactly when no node of the document satisfies it. -/
theorem findAll_eq_nil_iff (p : Node → Bool) (roots : List Node) :
    findAll p roots = [] ↔ ∀ n ∈ allNodesList roots, ¬ p n := by
  unfold findAll
  rw [List.filter_eq_nil_iff]

/-! ### Step characterization lemmas -/

/-- What the title step does to the whole record. -/
theorem stepTitle_char (doc : List Node) (ud : UserData) :
    stepTitle doc ud =
      { ud with
        page_title :=
          (findNode isTitleTag doc).elim ud.page_title (fun t => some (pyTrim (textOf t))) } := by
  cases h : findNode isTitleTag doc <;> simp [stepTitle, h, Option.elim]

/-- What the heading step does to the whole record. -/
theorem stepHeading_char (doc : List Node) (ud : UserData) :
    stepHeading doc ud =
      { ud with
        full_name :=
          (profileHeading doc).elim ud.full_name (fun h => some (pyTrim (textOf h))) } := by
  cases h : profileHeading doc <;> simp [stepHeading, h, Option.elim]

/-- What the avatar step does to the whole record. -/
theorem stepAvatar_char (base : String) (doc : List Node) (ud : UserData) :
    stepAvatar base doc ud =
      { ud with
        avatar_url :=
          match avatarImg doc with
          | some img =>
            match getAttr img "src" with
            | some src =>
              if src.isEmpty then ud.avatar_url else some (normalizeAvatarUrl base src)
            | none => ud.avatar_url
          | none => ud.avatar_url } := by
  cases h : avatarImg doc with
  | none => simp [stepAvatar, h]
  | some img =>
    cases h2 : getAttr img "src" with
    | none => simp [stepAvatar, h, h2]
    | some src =>
      by_cases h3 : src.isEmpty <;> simp [stepAvatar, h, h2, h3]

/-- What the email step does to the whole record. -/
theorem stepEmail_char (doc : List Node) (ud : UserData) :
    stepEmail doc ud =
      { ud with
        email :=
          (findNode isMailtoLink doc).elim ud.email
            (fun a => some (pyReplace ((getAttr a "href").getD "") "mailto:" "")) } := by
  cases h : findNode isMailtoLink doc <;> simp [stepEmail, h, Option.elim]

/-- What the username step does to the whole record. -/
theorem stepUsername_char (doc : List Node) (ud : UserData) :
    stepUsername doc ud =
      { ud with
        username :=
          (findNode isUserHoverSpan doc).elim ud.username
            (fun el => some
              (match getAttr el "data-username" with
               | some u => if u.isEmpty then pyTrim (textOf el) else u
               | none => pyTrim (textOf el))) } := by
  cases h : findNode isUserHoverSpan doc <;> simp [stepUsername, h, Option.elim]

/-! ### Scalar preservation across the section passes -/

/-- The scalar fields of the record (everything but `details` / `sections`). -/
def ScalarEq (a b : UserData) : Prop :=
  a.id = b.id ∧ a.profile_url = b.profile_url ∧ a.page_title = b.page_title ∧
    a.full_name = b.full_name ∧ a.avatar_url = b.avatar_url ∧ a.email = b.email ∧
    a.username = b.username

/-- Scalar equality is reflexive. -/
theorem scalarEq_refl (a : UserData) : ScalarEq a a := by
  simp [ScalarEq]

/-- Scalar equality composes. -/
theorem scalarEq_trans {a b c : UserData} (h1 : ScalarEq a b) (h2 : ScalarEq b c) :
    ScalarEq a c := by
  obtain ⟨e1, e2, e3, e4, e5, e6, e7⟩ := h1
  obtain ⟨f1, f2, f3, f4, f5, f6, f7⟩ := h2
  exact ⟨e1.trans f1, e2.trans f2, e3.trans f3, e4.trans f4, e5.trans f5,
    e6.trans f6, e7.trans f7⟩

/-- A fold whose step keeps the scalars keeps the scalars. -/
theorem foldl_scalarEq {β : Type} (f : UserData → β → UserData)
    (hf : ∀ ud b, ScalarEq (f ud b) ud) :
    ∀ (l : List β) (ud : UserData), ScalarEq (l.foldl f ud) ud := by
  intro l
  induction l with
  | nil => intro ud; exact scalarEq_refl ud
  | cons b bs ih =>
    intro ud
    exact scalarEq_trans (ih (f ud b)) (hf ud b)

/-- One definition list never touches the scalar fields. -/
theorem processDl_scalarEq (ud : UserData) (dl : Node) : ScalarEq (processDl ud dl) ud := by
  unfold processDl
  dsimp only
  split <;> simp [ScalarEq]

/-- One table never touches the scalar fields. -/
theorem processTable_scalarEq (ud : UserData) (itbl : Nat × Node) :
    ScalarEq (processTable ud itbl) ud := by
  unfold processTable
  dsimp only
  split <;> simp [ScalarEq]

/-- One sub-panel section never touches the scalar fields. -/
theorem processSub_scalarEq (ud : UserData) (sub : Node) : ScalarEq (processSub ud sub) ud := by
  unfold processSub
  dsimp only
  split
  · simp [ScalarEq]
  · split <;> simp [ScalarEq]

/-- The definition-list pass keeps the scalars. -/
theorem stepDls_scalarEq (doc : List Node) (ud : UserData) : ScalarEq (stepDls doc ud) ud :=
  foldl_scalarEq processDl processDl_scalarEq _ ud

/-- The table pass keeps the scalars. -/
theorem stepTables_scalarEq (doc : List Node) (ud : UserData) :
    ScalarEq (stepTables doc ud) ud :=
  foldl_scalarEq processTable processTable_scalarEq _ ud

/-- The sub-panel pass keeps the scalars. -/
theorem stepPanel_scalarEq (doc : List Node) (ud : UserData) : ScalarEq (stepPanel doc ud) ud := by
  unfold stepPanel
  cases profilePanel doc with
  | none => exact scalarEq_refl ud
  | some d => exact foldl_scalarEq processSub processSub_scalarEq _ ud

/-- The three section passes composed keep every scalar field. -/
theorem sectionPasses_scalarEq (doc : List Node) (ud : UserData) :
    ScalarEq (stepPanel doc (stepTables doc (stepDls doc ud))) ud :=
  scalarEq_trans (stepPanel_scalarEq doc _)
    (scalarEq_trans (stepTables_scalarEq doc _) (stepDls_scalarEq doc ud))

/-! ### Injectivity of the decimal table keys

The table pass keys sections by `"table_" ++ toString i`; to reason about
distinct indices we prove `Nat.repr` injective by reconstructing the number
from its digits. -/

/-- The numeric value of a decimal digit character. -/
def digitVal (c : Char) : Nat := c.toNat - 48

/-- The number a decimal digit string denotes. -/
def digitsVal (l : List Char) : Nat := l.foldl (fun a c => a * 10 + digitVal c) 0

/-- `digitVal` undoes `Nat.digitChar` on proper digits. -/
theorem digitVal_digitChar (d : Nat) (h : d < 10) : digitVal (Nat.digitChar d) = d := by
  interval_cases d <;> rfl

/-- The digit accumulator of `Nat.toDigitsCore` is just an appended suffix. -/
theorem toDigitsCore_append (fuel : Nat) : ∀ (n : Nat) (ds : List Char),
    Nat.toDigitsCore 10 fuel n ds = Nat.toDigitsCore 10 fuel n [] ++ ds := by
  induction fuel with
  | zero => intro n ds; simp [Nat.toDigitsCore]
  | succ f ih =>
    intro n ds
    simp only [Nat.toDigitsCore]
    by_cases h : n / 10 = 0
    · simp [h]
    · simp only [h, if_false]
      rw [ih (n / 10) (Nat.digitChar (n % 10) :: ds), ih (n / 10) [Nat.digitChar (n % 10)]]
      simp

/-- `Nat.toDigitsCore` ignores the fuel as long as it exceeds the number. -/
theorem toDigitsCore_fuel (n : Nat) : ∀ (f1 f2 : Nat) (ds : List Char), n < f1 → n < f2 →
    Nat.toDigitsCore 10 f1 n ds = Nat.toDigitsCore 10 f2 n ds := by
  induction n using Nat.strong_induction_on with
  | _ n ih =>
    intro f1 f2 ds h1 h2
    cases f1 with
    | zero => omega
    | succ g1 =>
      cases f2 with
      | zero => omega
      | succ g2 =>
        simp only [Nat.toDigitsCore]
        by_cases h : n / 10 = 0
        · simp [h]
        · simp only [h, if_false]
          have hn : 0 < n := by
            rcases Nat.eq_zero_or_pos n with h0 | h0
            · exact absurd (by simp [h0]) h
            · exact h0
          have hlt : n / 10 < n := Nat.div_lt_self hn (by omega)
          exact ih (n / 10) hlt g1 g2 _ (by omega) (by omega)

/-- Digit-string reconstruction: `digitsVal` inverts `Nat.toDigits`. -/
theorem digitsVal_toDigits (n : Nat) : digitsVal (Nat.toDigits 10 n) = n := by
  induction n using Nat.strong_induction_on with
  | _ n ih =>
    unfold Nat.toDigits
    simp only [Nat.toDigitsCore]
    by_cases h : n / 10 = 0
    · have hd : n % 10 < 10 := Nat.mod_lt _ (by omega)
      have hgoal : digitsVal [Nat.digitChar (n % 10)] = n := by
        simp [digitsVal]
        rw [digitVal_digitChar _ hd]
        omega
      simp [h, hgoal]
    · simp only [h, if_false]
      have hn : 0 < n := by
        rcases Nat.eq_zero_or_pos n with h0 | h0
        · exact absurd (by simp [h0]) h
        · exact h0
      have hlt : n / 10 < n := Nat.div_lt_self hn (by omega)
      rw [toDigitsCore_append n (n / 10) [Nat.digitChar (n % 10)]]
      rw [toDigitsCore_fuel (n / 10) n (n / 10 + 1) [] (by omega) (by omega)]
      have hrec : digitsVal (Nat.toDigits 10 (n / 10)) = n / 10 := ih (n / 10) hlt
      unfold Nat.toDigits at hrec
      have hd : n % 10 < 10 := Nat.mod_lt _ (by omega)
      calc digitsVal (Nat.toDigitsCore 10 (n / 10 + 1) (n / 10) [] ++ [Nat.digitChar (n % 10)])
          = digitsVal (Nat.toDigitsCore 10 (n / 10 + 1) (n / 10) []) * 10 +
              digitVal (Nat.digitChar (n % 10)) := by
            simp [digitsVal, List.foldl_append]
        _ = n / 10 * 10 + n % 10 := by rw [hrec, digitVal_digitChar _ hd]
        _ = n := by omega

/-- The decimal representation of naturals is injective. -/
theorem natRepr_inj {m n : Nat} (h : Nat.repr m = Nat.repr n) : m = n := by
  have hd : Nat.toDigits 10 m = Nat.toDigits 10 n := by
    have h2 := congrArg String.data h
    simpa [Nat.repr, List.asString] using h2
  have := congrArg digitsVal hd
  rwa [digitsVal_toDigits, digitsVal_toDigits] at this

/-- Distinct table indices give distinct section keys. -/
theorem tableKey_ne {i j : Nat} (h : i ≠ j) :
    ("table_" ++ toString i) ≠ ("table_" ++ toString j) := by
  intro hk
  have h2 := congrArg String.data hk
  rw [String.data_append, String.data_append] at h2
  have h3 : (toString i : String).data = (toString j : String).data :=
    List.append_cancel_left h2
  have h4 : (toString i : String) = toString j := by
    cases hti : (toString i : String)
    cases htj : (toString j : String)
    simp_all
  exact h (natRepr_inj h4)

/-- A table key never collides with the definition-list section key. -/
theorem tableKey_ne_pd (i : Nat) : ("table_" ++ toString i) ≠ "profile_details" := by
  intro h
  have h2 := congrArg String.data h
  rw [String.data_append] at h2
  have h3 : ("table_" : String).data = ['t', 'a', 'b', 'l', 'e', '_'] := rfl
  have h4 : ("profile_details" : String).data =
      ['p', 'r', 'o', 'f', 'i', 'l', 'e', '_', 'd', 'e', 't', 'a', 'i', 'l', 's'] := rfl
  rw [h3, h4] at h2
  injection h2 with h5 _
  exact absurd h5 (by decide)

/-! ### Definition-list pass characterization -/

/-- The first component of the paired fold builds the per-list mapping. -/
theorem foldl_dlStep_fst (l : List (String × String)) :
    ∀ (a b : List (String × String)),
      (l.foldl dlStep (a, b)).1 = l.foldl (fun sd kv => dictInsert sd kv.1 kv.2) a := by
  induction l with
  | nil => intro a b; rfl
  | cons kv rest ih => intro a b; exact ih _ _

/-- The second component of the paired fold threads the `details` mapping. -/
theorem foldl_dlStep_snd (l : List (String × String)) :
    ∀ (a b : List (String × String)),
      (l.foldl dlStep (a, b)).2 = l.foldl detailStep b := by
  induction l with
  | nil => intro a b; rfl
  | cons kv rest ih => intro a b; exact ih _ _

/-- What one definition list does to the whole record. -/
theorem processDl_char (ud : UserData) (dl : Node) :
    processDl ud dl =
      { ud with
        details := (dlPairsOf dl).foldl detailStep ud.details,
        sections :=
          if (sectionDataOf dl).isEmpty then ud.sections
          else dictInsert ud.sections "profile_details" (SectionVal.dict (sectionDataOf dl)) } := by
  unfold processDl
  dsimp only
  rw [foldl_dlStep_fst, foldl_dlStep_snd]
  split <;> simp_all [sectionDataOf]

/-- The definition-list pass folds `detailStep` over all pairs in order. -/
theorem foldl_processDl_details (dls : List Node) :
    ∀ (ud : UserData),
      (dls.foldl processDl ud).details =
        ((dls.map dlPairsOf).flatten).foldl detailStep ud.details := by
  induction dls with
  | nil => intro ud; rfl
  | cons dl rest ih =>
    intro ud
    simp only [List.foldl_cons, List.map_cons, List.flatten_cons, List.foldl_append]
    rw [ih, processDl_char]

/-- The definition-list pass only ever writes the `profile_details` section. -/
theorem foldl_processDl_sections_ne (dls : List Node) (key : String)
    (hk : key ≠ "profile_details") :
    ∀ (ud : UserData),
      dictGet (dls.foldl processDl ud).sections key = dictGet ud.sections key := by
  induction dls with
  | nil => intro ud; rfl
  | cons dl rest ih =>
    intro ud
    simp only [List.foldl_cons]
    rw [ih, processDl_char]
    dsimp only
    split
    · rfl
    · exact dictGet_insert_ne _ _ _ _ hk

/-- The `profile_details` section after the definition-list pass holds the
mapping of the last definition list that yielded a non-empty mapping. -/
theorem foldl_processDl_sections_pd (dls : List Node) :
    ∀ (ud : UserData),
      dictGet (dls.foldl processDl ud).sections "profile_details" =
        match lastNonemptyDlData dls with
        | some m => some (SectionVal.dict m)
        | none => dictGet ud.sections "profile_details" := by
  induction dls with
  | nil => intro ud; rfl
  | cons dl rest ih =>
    intro ud
    simp only [List.foldl_cons]
    rw [ih, processDl_char]
    have hcons : lastNonemptyDlData (dl :: rest) =
        match lastNonemptyDlData rest with
        | some m => some m
        | none =>
          if (sectionDataOf dl).isEmpty then none else some (sectionDataOf dl) := rfl
    rw [hcons]
    cases h : lastNonemptyDlData rest with
    | some m => rfl
    | none =>
      dsimp only
      by_cases h2 : (sectionDataOf dl).isEmpty
      · rw [if_pos h2, if_pos h2]
      · rw [if_neg h2, if_neg h2, dictGet_insert_self]

/-! ### Table pass characterization -/

/-- What one enumerated table does to the whole record. -/
theorem processTable_char (ud : UserData) (itbl : Nat × Node) :
    processTable ud itbl =
      { ud with
        sections :=
          if (tableDataOf itbl.2).isEmpty then ud.sections
          else dictInsert ud.sections ("table_" ++ toString itbl.1)
            (SectionVal.table (tableDataOf itbl.2)) } := by
  unfold processTable
  dsimp only
  split <;> simp_all

/-- The table pass never touches keys that are not table keys. -/
theorem foldl_processTable_sections_ne (l : List (Nat × Node)) (key : String)
    (hk : ∀ i : Nat, key ≠ "table_" ++ toString i) :
    ∀ (ud : UserData),
      dictGet (l.foldl processTable ud).sections key = dictGet ud.sections key := by
  induction l with
  | nil => intro ud; rfl
  | cons itbl rest ih =>
    intro ud
    simp only [List.foldl_cons]
    rw [ih, processTable_char]
    dsimp only
    split
    · rfl
    · exact dictGet_insert_ne _ _ _ _ (hk itbl.1)

/-- Tables enumerated past an index never touch that index's key. -/
theorem foldl_processTable_get_lt (l : List Node) :
    ∀ (m k : Nat), k < m → ∀ (ud : UserData),
      dictGet ((List.enumFrom m l).foldl processTable ud).sections ("table_" ++ toString k) =
        dictGet ud.sections ("table_" ++ toString k) := by
  induction l with
  | nil => intro m k _ ud; rfl
  | cons t rest ih =>
    intro m k hk ud
    simp only [List.enumFrom, List.foldl_cons]
    rw [ih (m + 1) k (by omega), processTable_char]
    dsimp only
    split
    · rfl
    · exact dictGet_insert_ne _ _ _ _ (tableKey_ne (by omega))

/-- The stored value at a table key after enumerating from `m`: the table data
of the table at relative position `i` when non-empty, the old value when it
yielded no rows. -/
theorem foldl_processTable_get (l : List Node) :
    ∀ (m : Nat) (ud : UserData) (i : Nat) (hi : i < l.length),
      dictGet ((List.enumFrom m l).foldl processTable ud).sections
          ("table_" ++ toString (m + i)) =
        if (tableDataOf (l.get ⟨i, hi⟩)).isEmpty then
          dictGet ud.sections ("table_" ++ toString (m + i))
        else some (SectionVal.table (tableDataOf (l.get ⟨i, hi⟩))) := by
  induction l with
  | nil => intro m ud i hi; exact absurd hi (by simp)
  | cons t rest ih =>
    intro m ud i hi
    cases i with
    | zero =>
      simp only [List.enumFrom, List.foldl_cons, Nat.add_zero, List.get]
      rw [foldl_processTable_get_lt rest (m + 1) m (by omega), processTable_char]
      dsimp only
      split
      · simp_all
      · simp_all [dictGet_insert_self]
    | succ j =>
      have hj : j < rest.length := by simpa using hi
      have hkey : m + (j + 1) = (m + 1) + j := by omega
      have hpres :
          dictGet (processTable ud (m, t)).sections ("table_" ++ toString ((m + 1) + j)) =
            dictGet ud.sections ("table_" ++ toString ((m + 1) + j)) := by
        rw [processTable_char]
        dsimp only
        split
        · rfl
        · exact dictGet_insert_ne _ _ _ _ (tableKey_ne (by omega))
      simp only [List.enumFrom, List.foldl_cons, List.get, hkey]
      rw [ih (m + 1) (processTable ud (m, t)) j hj, hpres]

/-! ### Record-level characterizations of `parse_user_profile` -/

/-- The scalar prefix leaves `details` empty. -/
theorem scalarSteps_details (doc : List Node) (i u b : String) :
    (scalarSteps doc i u b).details = [] := by
  simp [scalarSteps, stepUsername_char, stepEmail_char, stepAvatar_char, stepHeading_char,
    stepTitle_char, initRecord]

/-- The scalar prefix leaves `sections` empty. -/
theorem scalarSteps_sections (doc : List Node) (i u b : String) :
    (scalarSteps doc i u b).sections = [] := by
  simp [scalarSteps, stepUsername_char, stepEmail_char, stepAvatar_char, stepHeading_char,
    stepTitle_char, initRecord]

/-- The scalar prefix keeps the caller-supplied id. -/
theorem scalarSteps_id (doc : List Node) (i u b : String) :
    (scalarSteps doc i u b).id = i := by
  simp [scalarSteps, stepUsername_char, stepEmail_char, stepAvatar_char, stepHeading_char,
    stepTitle_char, initRecord]

/-- The scalar prefix keeps the caller-supplied profile URL. -/
theorem scalarSteps_profile_url (doc : List Node) (i u b : String) :
    (scalarSteps doc i u b).profile_url = u := by
  simp [scalarSteps, stepUsername_char, stepEmail_char, stepAvatar_char, stepHeading_char,
    stepTitle_char, initRecord]

/-- The page title the scalar prefix extracts. -/
theorem scalarSteps_page_title (doc : List Node) (i u b : String) :
    (scalarSteps doc i u b).page_title =
      (findNode isTitleTag doc).map (fun t => pyTrim (textOf t)) := by
  simp only [scalarSteps, stepUsername_char, stepEmail_char, stepAvatar_char, stepHeading_char,
    stepTitle_char, initRecord]
  cases findNode isTitleTag doc <;> simp [Option.elim]

/-- The full name the scalar prefix extracts. -/
theorem scalarSteps_full_name (doc : List Node) (i u b : String) :
    (scalarSteps doc i u b).full_name =
      (profileHeading doc).map (fun h => pyTrim (textOf h)) := by
  simp only [scalarSteps, stepUsername_char, stepEmail_char, stepAvatar_char, stepHeading_char,
    stepTitle_char, initRecord]
  cases profileHeading doc <;> simp [Option.elim]

/-- The avatar URL the scalar prefix extracts. -/
theorem scalarSteps_avatar_url (doc : List Node) (i u b : String) :
    (scalarSteps doc i u b).avatar_url =
      (match avatarImg doc with
       | some img =>
         match getAttr img "src" with
         | some src => if src.isEmpty then none else some (normalizeAvatarUrl b src)
         | none => none
       | none => none) := by
  simp only [scalarSteps, stepUsername_char, stepEmail_char, stepAvatar_char, stepHeading_char,
    stepTitle_char, initRecord]

/-- The email the scalar prefix extracts. -/
theorem scalarSteps_email (doc : List Node) (i u b : String) :
    (scalarSteps doc i u b).email =
      (findNode isMailtoLink doc).map
        (fun a => pyReplace ((getAttr a "href").getD "") "mailto:" "") := by
  simp only [scalarSteps, stepUsername_char, stepEmail_char, stepAvatar_char, stepHeading_char,
    stepTitle_char, initRecord]
  cases findNode isMailtoLink doc <;> simp [Option.elim]

/-- The username the scalar prefix extracts. -/
theorem scalarSteps_username (doc : List Node) (i u b : String) :
    (scalarSteps doc i u b).username =
      (findNode isUserHoverSpan doc).map
        (fun el =>
          match getAttr el "data-username" with
          | some v => if v.isEmpty then pyTrim (textOf el) else v
          | none => pyTrim (textOf el)) := by
  simp only [scalarSteps, stepUsername_char, stepEmail_char, stepAvatar_char, stepHeading_char,
    stepTitle_char, initRecord]
  cases findNode isUserHoverSpan doc <;> simp [Option.elim]

/-- A fold whose step keeps `details` keeps `details`. -/
theorem foldl_details {β : Type} (f : UserData → β → UserData)
    (hf : ∀ ud x, (f ud x).details = ud.details) :
    ∀ (l : List β) (ud : UserData), (l.foldl f ud).details = ud.details := by
  intro l
  induction l with
  | nil => intro ud; rfl
  | cons x xs ih => intro ud; rw [List.foldl_cons, ih, hf]

/-- One table keeps `details`. -/
theorem processTable_details (ud : UserData) (itbl : Nat × Node) :
    (processTable ud itbl).details = ud.details := by
  rw [processTable_char]

/-- One sub-panel section keeps `details`. -/
theorem processSub_details (ud : UserData) (sub : Node) :
    (processSub ud sub).details = ud.details := by
  unfold processSub
  dsimp only
  split
  · rfl
  · split <;> rfl

/-- The whole record's `details` is the recognized-pair fold of all pairs. -/
theorem parse_details (doc : List Node) (i u b : String) :
    (parse_user_profile doc i u b).details = (dlPairsList doc).foldl detailStep [] := by
  unfold parse_user_profile
  have hpanel : ∀ ud, (stepPanel doc ud).details = ud.details := by
    intro ud
    unfold stepPanel
    cases profilePanel doc with
    | none => rfl
    | some d => exact foldl_details processSub processSub_details _ ud
  rw [hpanel]
  unfold stepTables
  rw [foldl_details processTable processTable_details]
  unfold stepDls
  rw [foldl_processDl_details]
  rw [scalarSteps_details]
  rfl

/-- A pass over a missing profile container is the identity. -/
theorem stepPanel_eq_of_none (doc : List Node) (ud : UserData)
    (h : profilePanel doc = none) : stepPanel doc ud = ud := by
  unfold stepPanel
  rw [h]

/-- No profile container element in the document means no container found. -/
theorem profilePanel_none (doc : List Node)
    (h : ∀ n ∈ allNodesList doc, isProfilePanelId n = false ∧ isProfilePanelClass n = false) :
    profilePanel doc = none := by
  unfold profilePanel
  rw [(findNode_eq_none_iff _ _).mpr (fun n hn => by simp [(h n hn).1])]
  exact (findNode_eq_none_iff _ _).mpr (fun n hn => by simp [(h n hn).2])

/-- With no profile container, the `profile_details` section of the final
record is the mapping of the last non-empty definition list. -/
theorem parse_sections_pd (doc : List Node) (i u b : String)
    (h : profilePanel doc = none) :
    dictGet (parse_user_profile doc i u b).sections "profile_details" =
      (lastNonemptyDlData (findAll isDl doc)).map SectionVal.dict := by
  unfold parse_user_profile
  rw [stepPanel_eq_of_none _ _ h]
  unfold stepTables
  rw [foldl_processTable_sections_ne _ _ (fun i2 => Ne.symm (tableKey_ne_pd i2))]
  unfold stepDls
  rw [foldl_processDl_sections_pd]
  cases hm : lastNonemptyDlData (findAll isDl doc) <;>
    simp [scalarSteps_sections, dictGet]

/-- With no profile container, the final record's entry at a table key is the
table data of the table at that document position, absent when that table
yielded no rows. -/
theorem parse_sections_table (doc : List Node) (i u b : String)
    (h : profilePanel doc = none) (j : Nat) (hj : j < (findAll isTable doc).length) :
    dictGet (parse_user_profile doc i u b).sections ("table_" ++ toString j) =
      if (tableDataOf ((findAll isTable doc).get ⟨j, hj⟩)).isEmpty then none
      else some (SectionVal.table (tableDataOf ((findAll isTable doc).get ⟨j, hj⟩))) := by
  unfold parse_user_profile
  rw [stepPanel_eq_of_none _ _ h]
  unfold stepTables
  have henum : (findAll isTable doc).enum = List.enumFrom 0 (findAll isTable doc) := rfl
  rw [henum]
  have hmain := foldl_processTable_get (findAll isTable doc) 0
    (stepDls doc (scalarSteps doc i u b)) j hj
  rw [Nat.zero_add] at hmain
  rw [hmain]
  have hdls : dictGet (stepDls doc (scalarSteps doc i u b)).sections
      ("table_" ++ toString j) = none := by
    unfold stepDls
    rw [foldl_processDl_sections_ne _ _ (tableKey_ne_pd j)]
    simp [scalarSteps_sections, dictGet]
  rw [hdls]

/-- The final record keeps the caller-supplied id. -/
theorem parse_id (doc : List Node) (i u b : String) :
    (parse_user_profile doc i u b).id = i := by
  unfold parse_user_profile
  rw [(sectionPasses_scalarEq doc (scalarSteps doc i u b)).1]
  exact scalarSteps_id doc i u b

/-- The final record keeps the caller-supplied profile URL. -/
theorem parse_profile_url (doc : List Node) (i u b : String) :
    (parse_user_profile doc i u b).profile_url = u := by
  unfold parse_user_profile
  rw [(sectionPasses_scalarEq doc (scalarSteps doc i u b)).2.1]
  exact scalarSteps_profile_url doc i u b

/-- The final record's page title field. -/
theorem parse_page_title (doc : List Node) (i u b : String) :
    (parse_user_profile doc i u b).page_title =
      (findNode isTitleTag doc).map (fun t => pyTrim (textOf t)) := by
  unfold parse_user_profile
  rw [(sectionPasses_scalarEq doc (scalarSteps doc i u b)).2.2.1]
  exact scalarSteps_page_title doc i u b

/-- The final record's full name field. -/
theorem parse_full_name (doc : List Node) (i u b : String) :
    (parse_user_profile doc i u b).full_name =
      (profileHeading doc).map (fun h => pyTrim (textOf h)) := by
  unfold parse_user_profile
  rw [(sectionPasses_scalarEq doc (scalarSteps doc i u b)).2.2.2.1]
  exact scalarSteps_full_name doc i u b

/-- The final record's avatar URL field. -/
theorem parse_avatar_url (doc : List Node) (i u b : String) :
    (parse_user_profile doc i u b).avatar_url =
      (match avatarImg doc with
       | some img =>
         match getAttr img "src" with
         | some src => if src.isEmpty then none else some (normalizeAvatarUrl b src)
         | none => none
       | none => none) := by
  unfold parse_user_profile
  rw [(sectionPasses_scalarEq doc (scalarSteps doc i u b)).2.2.2.2.1]
  exact scalarSteps_avatar_url doc i u b

/-- The final record's email field. -/
theorem parse_email (doc : List Node) (i u b : String) :
    (parse_user_profile doc i u b).email =
      (findNode isMailtoLink doc).map
        (fun a => pyReplace ((getAttr a "href").getD "") "mailto:" "") := by
  unfold parse_user_profile
  rw [(sectionPasses_scalarEq doc (scalarSteps doc i u b)).2.2.2.2.2.1]
  exact scalarSteps_email doc i u b

/-- The final record's username field. -/
theorem parse_username (doc : List Node) (i u b : String) :
    (parse_user_profile doc i u b).username =
      (findNode isUserHoverSpan doc).map
        (fun el =>
          match getAttr el "data-username" with
          | some v => if v.isEmpty then pyTrim (textOf el) else v
          | none => pyTrim (textOf el)) := by
  unfold parse_user_profile
  rw [(sectionPasses_scalarEq doc (scalarSteps doc i u b)).2.2.2.2.2.2]
  exact scalarSteps_username doc i u b

/-! ### The claims -/

/-- C1: for every document in which no recognized marker is present (no title
element, no heading, no user-logo or Avatar image, no mailto hyperlink, no
user-hover element, no definition list, no table, and no profile container),
`parse_user_profile` returns a record containing only the caller-supplied id
and the profile URL: every optional field is absent and the `details` and
`sections` mappings are empty.  The embedding is a total function, so a record
is always produced and no exception can be raised. -/
theorem parse_markerFree_bare_record (doc : List Node) (i u b : String)
    (h : ∀ n ∈ allNodesList doc, isMarkerNode n = false) :
    parse_user_profile doc i u b = { id := i, profile_url := u } := by
  have ht : findNode isTitleTag doc = none := by
    refine (findNode_eq_none_iff _ _).mpr (fun n hn hc => ?_)
    have := h n hn
    simp [isMarkerNode, hc] at this
  have hh1 : findNode isH1PageTitle doc = none := by
    refine (findNode_eq_none_iff _ _).mpr (fun n hn hc => ?_)
    have := h n hn
    simp only [isH1PageTitle, Bool.and_eq_true] at hc
    simp [isMarkerNode, isHeadingTag, hc.1] at this
  have hh2 : findNode isH1 doc = none := by
    refine (findNode_eq_none_iff _ _).mpr (fun n hn hc => ?_)
    have := h n hn
    simp only [isH1] at hc
    simp [isMarkerNode, isHeadingTag, hc] at this
  have hlogo : findNode isUserLogoImg doc = none := by
    refine (findNode_eq_none_iff _ _).mpr (fun n hn hc => ?_)
    have := h n hn
    simp [isMarkerNode, hc] at this
  have halt : findNode isAvatarAltImg doc = none := by
    refine (findNode_eq_none_iff _ _).mpr (fun n hn hc => ?_)
    have := h n hn
    simp [isMarkerNode, hc] at this
  have hmail : findNode isMailtoLink doc = none := by
    refine (findNode_eq_none_iff _ _).mpr (fun n hn hc => ?_)
    have := h n hn
    simp [isMarkerNode, hc] at this
  have hhover : findNode isUserHoverSpan doc = none := by
    refine (findNode_eq_none_iff _ _).mpr (fun n hn hc => ?_)
    have := h n hn
    simp [isMarkerNode, hc] at this
  have hdl : findAll isDl doc = [] := by
    refine (findAll_eq_nil_iff _ _).mpr (fun n hn hc => ?_)
    have := h n hn
    simp [isMarkerNode, hc] at this
  have htab : findAll isTable doc = [] := by
    refine (findAll_eq_nil_iff _ _).mpr (fun n hn hc => ?_)
    have := h n hn
    simp [isMarkerNode, hc] at this
  have hppid : findNode isProfilePanelId doc = none := by
    refine (findNode_eq_none_iff _ _).mpr (fun n hn hc => ?_)
    have := h n hn
    simp [isMarkerNode, hc] at this
  have hppcl : findNode isProfilePanelClass doc = none := by
    refine (findNode_eq_none_iff _ _).mpr (fun n hn hc => ?_)
    have := h n hn
    simp [isMarkerNode, hc] at this
  have hph : profileHeading doc = none := by
    unfold profileHeading
    rw [hh1, hh2]
  have hai : avatarImg doc = none := by
    unfold avatarImg
    rw [hlogo, halt]
  have hpp : profilePanel doc = none := by
    unfold profilePanel
    rw [hppid, hppcl]
  have hsdl : ∀ ud, stepDls doc ud = ud := by
    intro ud
    unfold stepDls
    rw [hdl]
    rfl
  have hstab : ∀ ud, stepTables doc ud = ud := by
    intro ud
    unfold stepTables
    rw [htab]
    rfl
  unfold parse_user_profile
  rw [stepPanel_eq_of_none _ _ hpp, hstab, hsdl]
  unfold scalarSteps
  rw [stepTitle_char, ht, stepHeading_char, hph, stepAvatar_char, hai, stepEmail_char, hmail,
    stepUsername_char, hhover]
  simp [initRecord, Option.elim]

/-- C1 witness: a concrete marker-free document yields the bare record. -/
theorem parse_markerFree_bare_record_witness :
    (∀ n ∈ allNodesList plainDoc, isMarkerNode n = false) ∧
      parse_user_profile plainDoc "u1" "https://h/p1" "https://base" =
        { id := "u1", profile_url := "https://h/p1" } :=
  ⟨by decide, parse_markerFree_bare_record plainDoc "u1" "https://h/p1" "https://base"
    (by decide)⟩

/-- C5: avatar URL normalization: a reference starting with `//` is prefixed
with `https:`; otherwise a reference starting with `/` is resolved against the
tracker base URL; any other reference passes through unchanged.  The function
is total, so normalization never fails on any string input. -/
theorem normalizeAvatarUrl_cases (base url : String) :
    (pyStartsWith url "//" = true → normalizeAvatarUrl base url = "https:" ++ url) ∧
      (pyStartsWith url "//" = false → pyStartsWith url "/" = true →
        normalizeAvatarUrl base url = urljoin base url) ∧
      (pyStartsWith url "//" = false → pyStartsWith url "/" = false →
        normalizeAvatarUrl base url = url) := by
  refine ⟨fun h1 => ?_, fun h1 h2 => ?_, fun h1 h2 => ?_⟩ <;>
    simp [normalizeAvatarUrl, h1]
  · simp [h2]
  · simp [h2]

/-- C5 witness: the three spec examples evaluate as normalized. -/
theorem normalizeAvatarUrl_cases_witness :
    normalizeAvatarUrl "https://h" "//x/y.png" = "https://x/y.png" ∧
      normalizeAvatarUrl "https://h" "/a/b.png" = "https://h/a/b.png" ∧
      normalizeAvatarUrl "https://h" "https://already/abs.png" = "https://already/abs.png" := by
  refine ⟨?_, ?_, ?_⟩
  · rw [(normalizeAvatarUrl_cases "https://h" "//x/y.png").1 (by decide)]
    decide
  · rw [(normalizeAvatarUrl_cases "https://h" "/a/b.png").2.1 (by decide) (by decide)]
    decide
  · exact (normalizeAvatarUrl_cases "https://h" "https://already/abs.png").2.2 (by decide)
      (by decide)

/-- C8: extraction is deterministic: two invocations of `parse_user_profile`
on identical inputs (same document, same user id, same profile URL, same base
URL) return records that are equal field for field. -/
theorem parse_deterministic (d1 d2 : List Node) (i1 i2 u1 u2 b1 b2 : String)
    (hd : d1 = d2) (hi : i1 = i2) (hu : u1 = u2) (hb : b1 = b2) :
    (parse_user_profile d1 i1 u1 b1).id = (parse_user_profile d2 i2 u2 b2).id ∧
      (parse_user_profile d1 i1 u1 b1).profile_url =
        (parse_user_profile d2 i2 u2 b2).profile_url ∧
      (parse_user_profile d1 i1 u1 b1).page_title =
        (parse_user_profile d2 i2 u2 b2).page_title ∧
      (parse_user_profile d1 i1 u1 b1).full_name =
        (parse_user_profile d2 i2 u2 b2).full_name ∧
      (parse_user_profile d1 i1 u1 b1).avatar_url =
        (parse_user_profile d2 i2 u2 b2).avatar_url ∧
      (parse_user_profile d1 i1 u1 b1).email = (parse_user_profile d2 i2 u2 b2).email ∧
      (parse_user_profile d1 i1 u1 b1).username =
        (parse_user_profile d2 i2 u2 b2).username ∧
      (parse_user_profile d1 i1 u1 b1).details =
        (parse_user_profile d2 i2 u2 b2).details ∧
      (parse_user_profile d1 i1 u1 b1).sections =
        (parse_user_profile d2 i2 u2 b2).sections := by
  subst hd hi hu hb
  exact ⟨rfl, rfl, rfl, rfl, rfl, rfl, rfl, rfl, rfl⟩

/-- C8 witness: the two runs on a concrete identical input agree field for
field. -/
theorem parse_deterministic_witness :
    (parse_user_profile emailDlDoc "u" "p" "b").email =
        (parse_user_profile emailDlDoc "u" "p" "b").email ∧
      (parse_user_profile emailDlDoc "u" "p" "b").details =
        (parse_user_profile emailDlDoc "u" "p" "b").details :=
  ⟨(parse_deterministic emailDlDoc emailDlDoc "u" "u" "p" "p" "b" "b"
      rfl rfl rfl rfl).2.2.2.2.2.1,
   (parse_deterministic emailDlDoc emailDlDoc "u" "u" "p" "p" "b" "b"
      rfl rfl rfl rfl).2.2.2.2.2.2.2.1⟩

/-- C10: when the first user-logo image of the document lacks a `src`
attribute, the record's avatar URL is absent, regardless of any other image
(in particular an Avatar-text image with a `src`): the Avatar-text fallback is
consulted only when no user-logo image exists at all. -/
theorem avatar_userLogo_without_src_absent (doc : List Node) (i u b : String)
    (img : Node) (hfound : findNode isUserLogoImg doc = some img)
    (hsrc : getAttr img "src" = none) :
    (parse_user_profile doc i u b).avatar_url = none := by
  rw [parse_avatar_url]
  have hai : avatarImg doc = some img := by
    unfold avatarImg
    rw [hfound]
  rw [hai]
  simp [hsrc]

/-- C10 witness: a concrete document whose user-logo image has no `src` next
to an Avatar-text image that has one still gets no avatar URL. -/
theorem avatar_userLogo_without_src_absent_witness :
    (parse_user_profile logoNoSrcDoc "u" "p" "https://base").avatar_url = none :=
  avatar_userLogo_without_src_absent logoNoSrcDoc "u" "p" "https://base"
    (elemL "img" [("class", "userLogo")] []) rfl rfl

/-- C2 counterexample: on a hyperlink target `mailto:mailto:x` the code
produces `x`, not the value `mailto:x` that stripping only the leading scheme
marker and leaving the remainder unchanged would give. -/
theorem email_remainder_not_unchanged_cex :
    stripLead? ("mailto:".data) ("mailto:mailto:x".data) = some ("mailto:x".data) ∧
      (parse_user_profile doubleMailtoDoc "u" "p" "b").email = some "x" ∧
      (parse_user_profile doubleMailtoDoc "u" "p" "b").email ≠ some "mailto:x" := by
  refine ⟨by decide, by decide, by decide⟩

/-- C2 (amended): the record's email is the target of the first mailto
hyperlink with every occurrence of the text `mailto:` removed (Python
`str.replace` removes all occurrences, so the leading scheme marker is
stripped but any later occurrence disappears too); the field is absent exactly
when no such hyperlink exists. -/
theorem parse_email_replace_all (doc : List Node) (i u b : String) :
    ((parse_user_profile doc i u b).email =
        (findNode isMailtoLink doc).map
          (fun a => pyReplace ((getAttr a "href").getD "") "mailto:" "")) ∧
      ((parse_user_profile doc i u b).email = none ↔
        ∀ n ∈ allNodesList doc, isMailtoLink n = false) := by
  refine ⟨parse_email doc i u b, ?_⟩
  rw [parse_email]
  constructor
  · intro hm
    cases hf : findNode isMailtoLink doc with
    | some a => rw [hf] at hm; simp at hm
    | none =>
      intro n hn
      have := (findNode_eq_none_iff _ _).mp hf n hn
      simpa using this
  · intro hall
    rw [(findNode_eq_none_iff _ _).mpr (fun n hn => by simp [hall n hn])]
    rfl

/-- C2 witness: on the concrete document the first mailto target evaluates to
the replace-all result. -/
theorem parse_email_replace_all_witness :
    (parse_user_profile doubleMailtoDoc "u" "p" "b").email = some "x" := by
  rw [(parse_email_replace_all doubleMailtoDoc "u" "p" "b").1]
  decide

/-- C4: the record's full name is the trimmed text of the first `h1` heading
carrying the `page-title` style class; when none exists, the trimmed text of
the first `h1` heading of any kind; it is absent exactly when the document has
no `h1` heading at all.  (The source only ever consults `h1` elements, so
"heading element" reads as `h1` throughout.) -/
theorem parse_full_name_heading_fallback (doc : List Node) (i u b : String) :
    ((parse_user_profile doc i u b).full_name =
        (match findNode isH1PageTitle doc with
         | some hh => some (pyTrim (textOf hh))
         | none => (findNode isH1 doc).map (fun hh => pyTrim (textOf hh)))) ∧
      ((parse_user_profile doc i u b).full_name = none ↔
        ∀ n ∈ allNodesList doc, isH1 n = false) := by
  constructor
  · rw [parse_full_name]
    unfold profileHeading
    cases findNode isH1PageTitle doc <;> simp
  · rw [parse_full_name]
    constructor
    · intro hnone
      cases hph : profileHeading doc with
      | some x => rw [hph] at hnone; simp at hnone
      | none =>
        unfold profileHeading at hph
        cases hh1 : findNode isH1PageTitle doc with
        | some x => rw [hh1] at hph; simp at hph
        | none =>
          rw [hh1] at hph
          intro n hn
          have := (findNode_eq_none_iff isH1 doc).mp hph n hn
          simpa using this
    · intro hall
      have hh2 : findNode isH1 doc = none :=
        (findNode_eq_none_iff _ _).mpr (fun n hn => by simp [hall n hn])
      have hh1 : findNode isH1PageTitle doc = none := by
        refine (findNode_eq_none_iff _ _).mpr (fun n hn hc => ?_)
        have h2 := hall n hn
        simp only [isH1PageTitle, Bool.and_eq_true] at hc
        simp [isH1, hc.1] at h2
      unfold profileHeading
      rw [hh1, hh2]
      rfl

/-- C4 witness: on a concrete document the class-marked heading wins over the
earlier plain heading, and the text is trimmed. -/
theorem parse_full_name_heading_fallback_witness :
    (parse_user_profile headingDoc "u" "p" "b").full_name = some "Jane Doe" := by
  rw [(parse_full_name_heading_fallback headingDoc "u" "p" "b").1]
  decide

/-! ### Supporting lemmas for the details / pairing / table claims -/

/-- Entries of an insertion fold come from the seed or the pair list. -/
theorem mem_foldl_insertPairs {p : String × String} :
    ∀ (l : List (String × String)) (d0 : List (String × String)),
      p ∈ l.foldl (fun sd kv => dictInsert sd kv.1 kv.2) d0 → p ∈ d0 ∨ p ∈ l := by
  intro l
  induction l with
  | nil => intro d0 h; exact Or.inl h
  | cons kv rest ih =>
    intro d0 h
    rcases ih (dictInsert d0 kv.1 kv.2) h with h1 | h1
    · rcases mem_dictInsert h1 with h2 | h2
      · exact Or.inl h2
      · exact Or.inr (by simp [h2])
    · exact Or.inr (List.mem_cons_of_mem _ h1)

/-- The `details` fold realizes the last-recognized-value semantics. -/
theorem foldl_detailStep_get :
    ∀ (l : List (String × String)) (d0 : List (String × String)) (key : String),
      dictGet (l.foldl detailStep d0) key =
        match lastRecognizedValue l key with
        | some v => some v
        | none => dictGet d0 key := by
  intro l
  induction l with
  | nil => intro d0 key; rfl
  | cons kv rest ih =>
    intro d0 key
    rw [List.foldl_cons, ih]
    have hcons : lastRecognizedValue (kv :: rest) key =
        match lastRecognizedValue rest key with
        | some v => some v
        | none =>
          if spacedKeys.contains (pyLower kv.1) && (normKey kv.1 == key) then some kv.2
          else none := rfl
    rw [hcons]
    cases hr : lastRecognizedValue rest key with
    | some v => rfl
    | none =>
      dsimp only
      by_cases h1 : spacedKeys.contains (pyLower kv.1)
      · have h1m : pyLower kv.1 ∈ spacedKeys := by simpa using h1
        by_cases h2 : normKey kv.1 = key
        · simp [detailStep, h1m, h2, dictGet_insert_self]
        · rw [if_neg (by simp [h2])]
          simp only [detailStep, if_pos h1]
          exact dictGet_insert_ne _ _ _ _ (fun hh => h2 hh.symm)
      · have h1m : ¬ pyLower kv.1 ∈ spacedKeys := by simpa using h1
        rw [if_neg (by simp [h1m])]
        simp [detailStep, h1m]

/-- A recognized pair guarantees a last recognized value for its key. -/
theorem lastRecognizedValue_isSome_of_mem :
    ∀ (l : List (String × String)) (k v : String), (k, v) ∈ l →
      spacedKeys.contains (pyLower k) = true →
      (lastRecognizedValue l (normKey k)).isSome := by
  intro l
  induction l with
  | nil => intro k v h _; simp at h
  | cons kv rest ih =>
    intro k v hmem hrec
    have hcons : lastRecognizedValue (kv :: rest) (normKey k) =
        match lastRecognizedValue rest (normKey k) with
        | some w => some w
        | none =>
          if spacedKeys.contains (pyLower kv.1) && (normKey kv.1 == normKey k) then some kv.2
          else none := rfl
    rw [hcons]
    cases hr : lastRecognizedValue rest (normKey k) with
    | some w => rfl
    | none =>
      rcases List.mem_cons.mp hmem with h1 | h1
      · have hk : kv.1 = k := by rw [← h1]
        have hrecm : pyLower k ∈ spacedKeys := by simpa using hrec
        rw [if_pos (by simp [hk, hrecm])]
        rfl
      · have := ih k v h1 hrec
        rw [hr] at this
        simp at this

/-- Entries of the `details` fold come from the seed or a recognized pair. -/
theorem mem_foldl_detailStep {p : String × String} :
    ∀ (l : List (String × String)) (d0 : List (String × String)),
      p ∈ l.foldl detailStep d0 →
      p ∈ d0 ∨ ∃ kv ∈ l, spacedKeys.contains (pyLower kv.1) = true ∧
        p = (normKey kv.1, kv.2) := by
  intro l
  induction l with
  | nil => intro d0 h; exact Or.inl h
  | cons kv rest ih =>
    intro d0 h
    rcases ih (detailStep d0 kv) h with h1 | ⟨kv2, hkv2, hrec2, hpe2⟩
    · by_cases hc : spacedKeys.contains (pyLower kv.1) = true
      · have hcm : pyLower kv.1 ∈ spacedKeys := by simpa using hc
        rw [show detailStep d0 kv = dictInsert d0 (normKey kv.1) kv.2 by
          simp [detailStep, hcm]] at h1
        rcases mem_dictInsert h1 with h2 | h2
        · exact Or.inl h2
        · exact Or.inr ⟨kv, List.mem_cons_self _ _, hc, h2⟩
      · have hcm : ¬ pyLower kv.1 ∈ spacedKeys := by simpa using hc
        rw [show detailStep d0 kv = d0 by simp [detailStep, hcm]] at h1
        exact Or.inl h1
    · exact Or.inr ⟨kv2, List.mem_cons_of_mem _ hkv2, hrec2, hpe2⟩

/-- The normalized form of a recognized key is in the fixed normalized set. -/
theorem norm_of_recognized (k : String) (h : spacedKeys.contains (pyLower k) = true) :
    normKey k ∈ normalizedKeys := by
  have hm : pyLower k ∈ spacedKeys := by simpa using h
  simp [spacedKeys] at hm
  unfold normKey
  rcases hm with h1 | h1 | h1 | h1 | h1 | h1 <;> rw [h1] <;> decide

/-- The table data of one table is exactly its non-cell-free rows, each row
the trimmed text of its cells. -/
theorem tableDataOf_filter_map (tbl : Node) :
    tableDataOf tbl =
      ((findAll isTr (childrenOf tbl)).filter (fun r => !(rowCells r).isEmpty)).map
        (fun r => (rowCells r).map (fun c => pyTrim (textOf c))) := by
  have hgen : ∀ (rows : List Node) (acc : List (List String)),
      rows.foldl
        (fun td row =>
          let cells := rowCells row
          if cells.isEmpty then td
          else td ++ [cells.map (fun c => pyTrim (textOf c))]) acc =
      acc ++ (rows.filter (fun r => !(rowCells r).isEmpty)).map
        (fun r => (rowCells r).map (fun c => pyTrim (textOf c))) := by
    intro rows
    induction rows with
    | nil => intro acc; simp
    | cons r rest ih =>
      intro acc
      by_cases h : (rowCells r).isEmpty <;>
        simp [h, ih, List.append_assoc]
  unfold tableDataOf
  rw [hgen]
  simp

/-- C3 counterexample: the key `full_name` normalizes (case-insensitively,
spaces to underscores) into the fixed set, and it is paired during the
definition-block pass, yet the code leaves `details` empty, because the code
compares the lowercased key against the spaced spellings only. -/
theorem details_underscore_key_cex :
    normKey "full_name" ∈ normalizedKeys ∧
      ("full_name", "X") ∈ dlPairsList underscoreKeyDoc ∧
      (parse_user_profile underscoreKeyDoc "u" "p" "b").details = [] := by
  refine ⟨by decide, by decide, by decide⟩

/-- C3 (amended): a paired definition-list key is written into the top-level
`details` mapping when its lowercased form (spaces intact) matches
`{username, full name, email, groups, login count, last login}`; the stored
key is the lowercased form with spaces mapped to underscores, a later
recognized pair with the same normalized key overwriting an earlier one
(`details` realizes the last-recognized-value semantics); and `details` never
contains any key outside `{username, full_name, email, groups, login_count,
last_login}`. -/
theorem parse_details_recognized_keys (doc : List Node) (i u b : String) :
    (∀ key, dictGet (parse_user_profile doc i u b).details key =
        lastRecognizedValue (dlPairsList doc) key) ∧
      (∀ p ∈ (parse_user_profile doc i u b).details, p.1 ∈ normalizedKeys) ∧
      (∀ k v, (k, v) ∈ dlPairsList doc → spacedKeys.contains (pyLower k) = true →
        (dictGet (parse_user_profile doc i u b).details (normKey k)).isSome) := by
  have hd := parse_details doc i u b
  refine ⟨?_, ?_, ?_⟩
  · intro key
    rw [hd, foldl_detailStep_get]
    cases lastRecognizedValue (dlPairsList doc) key <;> rfl
  · intro p hp
    rw [hd] at hp
    rcases mem_foldl_detailStep _ _ hp with h0 | ⟨kv, _, hrec, hpe⟩
    · simp at h0
    · rw [hpe]
      exact norm_of_recognized kv.1 hrec
  · intro k v hmem hrec
    rw [hd, foldl_detailStep_get]
    have hs := lastRecognizedValue_isSome_of_mem (dlPairsList doc) k v hmem hrec
    rcases Option.isSome_iff_exists.mp hs with ⟨w, hw⟩
    rw [hw]
    rfl

/-- C3 witness: on a concrete document the recognized key `Email` (trailing
colon stripped) lands in `details` under its normalized name. -/
theorem parse_details_recognized_keys_witness :
    dictGet (parse_user_profile emailDlDoc "u" "p" "b").details "email" = some "a@b" := by
  have := (parse_details_recognized_keys emailDlDoc "u" "p" "b").1 "email"
  rw [this]
  decide

/-- C6: with no profile container present (so that the later sub-panel pass
cannot overwrite a colliding key), every table with at least one row holding
at least one cell is stored under `table_<i>` where `i` is its 0-based
position among all tables of the document; a table yielding no rows produces
no key, leaving a gap in the numbering; and within a stored table the rows
with zero cells are skipped while every kept row is the trimmed text of its
cells. -/
theorem parse_tables_indexed_by_position (doc : List Node) (i u b : String)
    (h : ∀ n ∈ allNodesList doc, isProfilePanelId n = false ∧ isProfilePanelClass n = false)
    (j : Nat) (hj : j < (findAll isTable doc).length) :
    (dictGet (parse_user_profile doc i u b).sections ("table_" ++ toString j) =
        if (tableDataOf ((findAll isTable doc).get ⟨j, hj⟩)).isEmpty then none
        else some (SectionVal.table (tableDataOf ((findAll isTable doc).get ⟨j, hj⟩)))) ∧
      tableDataOf ((findAll isTable doc).get ⟨j, hj⟩) =
        ((findAll isTr (childrenOf ((findAll isTable doc).get ⟨j, hj⟩))).filter
            (fun r => !(rowCells r).isEmpty)).map
          (fun r => (rowCells r).map (fun c => pyTrim (textOf c))) :=
  ⟨parse_sections_table doc i u b (profilePanel_none doc h) j hj,
   tableDataOf_filter_map _⟩

/-- C6 witness: on a concrete document the empty first table produces no
`table_0` key while the second table is stored under `table_1`, its cell-free
row skipped. -/
theorem parse_tables_indexed_by_position_witness :
    dictGet (parse_user_profile twoTablesDoc "u" "p" "b").sections "table_0" = none ∧
      dictGet (parse_user_profile twoTablesDoc "u" "p" "b").sections "table_1" =
        some (SectionVal.table [["h", "v"]]) := by
  constructor
  · have hthm := (parse_tables_indexed_by_position twoTablesDoc "u" "p" "b"
      (by decide) 0 (by decide)).1
    have hkey : ("table_" ++ toString (0 : Nat) : String) = "table_0" := by decide
    rw [hkey] at hthm
    rw [hthm]
    decide
  · have hthm := (parse_tables_indexed_by_position twoTablesDoc "u" "p" "b"
      (by decide) 1 (by decide)).1
    have hkey : ("table_" ++ toString (1 : Nat) : String) = "table_1" := by decide
    rw [hkey] at hthm
    rw [hthm]
    decide

/-- C7: positional pairing of a definition list stops at the shorter of the
term and description counts, and every entry of the resulting key/value
mapping comes from such a paired term/description; the excess elements of the
longer side contribute nothing (and the total pairing function raises no
error). -/
theorem dl_pairing_truncates (dl : Node) :
    ((dlPairsOf dl).length =
        min (findAll isDt (childrenOf dl)).length (findAll isDd (childrenOf dl)).length) ∧
      ∀ p ∈ sectionDataOf dl,
        ∃ pr ∈ (findAll isDt (childrenOf dl)).zip (findAll isDd (childrenOf dl)),
          p = pairKV pr.1 pr.2 := by
  constructor
  · simp [dlPairsOf, List.length_zip]
  · intro p hp
    rcases mem_foldl_insertPairs _ _ hp with h0 | h1
    · simp at h0
    · rcases List.mem_map.mp h1 with ⟨pr, hpr, hpe⟩
      exact ⟨pr, hpr, hpe.symm⟩

/-- C7 witness: with two terms and one description exactly one pair forms,
and the single mapping entry comes from that pair. -/
theorem dl_pairing_truncates_witness :
    (dlPairsOf (elemL "dl" []
        [elemL "dt" [] [Node.text "First"], elemL "dt" [] [Node.text "Second"],
         elemL "dd" [] [Node.text "only value"]])).length = 1 ∧
      (∃ pr ∈ (findAll isDt (childrenOf (elemL "dl" []
            [elemL "dt" [] [Node.text "First"], elemL "dt" [] [Node.text "Second"],
             elemL "dd" [] [Node.text "only value"]]))).zip
          (findAll isDd (childrenOf (elemL "dl" []
            [elemL "dt" [] [Node.text "First"], elemL "dt" [] [Node.text "Second"],
             elemL "dd" [] [Node.text "only value"]]))),
        ("First", "only value") = pairKV pr.1 pr.2) := by
  constructor
  · rw [(dl_pairing_truncates (elemL "dl" []
      [elemL "dt" [] [Node.text "First"], elemL "dt" [] [Node.text "Second"],
       elemL "dd" [] [Node.text "only value"]])).1]
    decide
  · exact (dl_pairing_truncates (elemL "dl" []
      [elemL "dt" [] [Node.text "First"], elemL "dt" [] [Node.text "Second"],
       elemL "dd" [] [Node.text "only value"]])).2
      ("First", "only value") (by decide)

/-- C9: with no profile container present (so that the later sub-panel pass
cannot overwrite the key), the `profile_details` section of the final record
is the mapping of the last definition list whose pairing yielded a non-empty
mapping; in particular a later definition list yielding an empty mapping
leaves the stored entry unchanged. -/
theorem profile_details_last_nonempty_dl (doc : List Node) (i u b : String)
    (h : ∀ n ∈ allNodesList doc, isProfilePanelId n = false ∧ isProfilePanelClass n = false) :
    dictGet (parse_user_profile doc i u b).sections "profile_details" =
      (lastNonemptyDlData (findAll isDl doc)).map SectionVal.dict :=
  parse_sections_pd doc i u b (profilePanel_none doc h)

/-- C9 witness: a non-empty definition list followed by an empty one leaves
the non-empty mapping stored. -/
theorem profile_details_last_nonempty_dl_witness :
    dictGet (parse_user_profile twoDlsDoc "u" "p" "b").sections "profile_details" =
      some (SectionVal.dict [("Groups", "dev")]) := by
  rw [profile_details_last_nonempty_dl twoDlsDoc "u" "p" "b" (by decide)]
  decide
